import Mathlib

/-!
Verification of the 1g1r-romset-generator core against its specification.

The Python sources (generate.py, modules/header.py, modules/utils.py,
modules/classes.py) are shallowly embedded: byte buffers are lists of
natural numbers, Python integers are Int/Nat, Python dicts are association
lists, compiled regular expression patterns are abstracted as boolean
predicates on strings (only their truthiness is ever consumed by the
embedded code), and fallible code returns Option.
-/

namespace OneGOneR

/-! ## Python primitives

Slicing and range semantics of CPython, needed because
modules/header.py builds slices with possibly negative start indices. -/

/-- Converts a Python slice endpoint into an absolute index of a sequence of
length n: negative indices count from the end and are clamped at 0, positive
ones are clamped at n. -/
def pyIndex (i : Int) (n : Nat) : Nat :=
  if i < 0 then (Int.toNat (n + i)) else min i.toNat n

/-- Python slice l[a:b] with Int endpoints (CPython semantics, step 1). -/
def pySlice (l : List Nat) (a b : Int) : List Nat :=
  (l.take (pyIndex b l.length)).drop (pyIndex a l.length)

/-- Python range(n, 0, -c) for c > 0: the indices n, n-c, n-2c, ... while
positive; the sequence has ceil(n / c) elements.  (For c = 0 CPython raises
ValueError; the sources only call this with c = 2 and c = 4.) -/
def rangeDown (n c : Nat) : List Nat :=
  if c = 0 then [] else (List.range ((n + c - 1) / c)).map (fun j => n - j * c)

/-- Groups a list into consecutive chunks of c elements, front to back; the
last chunk may be shorter.  Used to state properties of the byte inversion
and to split SHA-1 input into blocks and words. -/
def chunksOf (c : Nat) (l : List Nat) : List (List Nat) :=
  if c = 0 then []
  else (List.range ((l.length + c - 1) / c)).map (fun j => (l.drop (j * c)).take c)

/-! ## modules/header.py : the header rule engine -/

/-- Embeds the static method Rule.__invert_bytes of modules/header.py:

    result = []
    for i in range(len(byte_arr), 0, -chunk_size):
        result.extend(byte_arr[i - chunk_size:i])
    return bytes(result)

Note that the slice start i - chunk_size may be negative on the last
iteration, in which case CPython interprets it relative to the end of
byte_arr. -/
def invert_bytes (byte_arr : List Nat) (chunk_size : Nat) : List Nat :=
  ((rangeDown byte_arr.length chunk_size).map
    (fun (i : Nat) => pySlice byte_arr ((i : Int) - (chunk_size : Int)) (i : Int))).flatten

/-- The four transform operations of a header rule (header.py Rule.__get_op). -/
inductive Operation where
  | none
  | bitswap
  | byteswap
  | wordswap
deriving DecidableEq, Repr

/-- Big-endian interpretation of a byte slice, as int.from_bytes(slice, 'big'). -/
def fromBytesBE (l : List Nat) : Nat :=
  l.foldl (fun acc b => acc * 256 + b) 0

/-- The boolean operation of a BooleanTest (header.py Rule.BooleanTest). -/
inductive BoolOp where
  | andOp
  | orOp
  | xorOp
deriving DecidableEq, Repr

/-- Applies a BooleanTest operation to the mask and the big-endian value of
the addressed byte slice (header.py Rule.BooleanTest.__bitwise_*). -/
def applyBoolOp (op : BoolOp) (mask v : Nat) : Nat :=
  match op with
  | .andOp => Nat.land mask v
  | .orOp => Nat.lor mask v
  | .xorOp => Nat.xor mask v

/-- Size comparison operators of a FileTest (header.py Rule.FileTest). -/
inductive CmpOp where
  | equal
  | less
  | greater
deriving DecidableEq, Repr

/-- Boolean power-of-two test on a Nat, used to state what the PO2 file test
is meant to decide (any power 2 ^ k equal to n has k < n + 1, so the
bounded search is exhaustive).  This is a specification-side predicate; the
program computes through a floating-point logarithm instead, see
check_po2. -/
def isPow2 (n : Nat) : Bool :=
  (List.range (n + 1)).any (fun k => n == 2 ^ k)

/-- The size attribute of a FileTest: either a parsed hex size with a
comparison operator, or the literal PO2.  In header.py the PO2 case stores
the bound method Rule.FileTest.__check_po2, whose value on a positive
length is the platform's IEEE-754 double computation
log(n, 2).is_integer(); that outcome is carried here as the abstract
predicate po2float, because double-precision libm behavior is outside the
embedding.  (It does NOT coincide with the exact power-of-two predicate:
CPython reports log(2 ** 29, 2) = 29.000000000000004, so its po2float is
false at the power of two 2 ^ 29.) -/
inductive SizeSpec where
  | cmp (op : CmpOp) (size : Nat)
  | po2 (po2float : Nat → Bool)

/-- Embeds Rule.FileTest.__check_po2 of header.py:

    return log(len(byte_arr), 2).is_integer()

math.log(0, 2) raises ValueError, modelled by none.  For a positive length
the result is the platform's floating-point verdict po2float (see
SizeSpec.po2). -/
def check_po2 (po2float : Nat → Bool) (byte_arr : List Nat) : Option Bool :=
  if byte_arr.length = 0 then Option.none else some (po2float byte_arr.length)

/-- The three test variants of a header rule, with the fields their
constructors in header.py store after parsing (offsets and values already
converted from hex; the byte width of the compared value is
len(value)/2, stored here explicitly as width so that end = offset + width). -/
inductive HTest where
  | data (offset : Nat) (value : Nat) (width : Nat) (result : Bool)
  | boolean (op : BoolOp) (mask : Nat) (value : Nat) (offset : Nat) (width : Nat)
      (result : Bool)
  | file (size : SizeSpec) (result : Bool)

/-- Embeds Test.apply of the three test classes in header.py.  DataTest and
BooleanTest always return a value; FileTest with size PO2 raises on an empty
buffer (none). -/
def HTest.apply (t : HTest) (byte_arr : List Nat) : Option Bool :=
  match t with
  | .data offset value width result =>
      some (((fromBytesBE (pySlice byte_arr (offset : Int)
        ((offset : Int) + (width : Int)))) == value) == result)
  | .boolean op mask value offset width result =>
      some (((applyBoolOp op mask (fromBytesBE (pySlice byte_arr (offset : Int)
        ((offset : Int) + (width : Int))))) == value) == result)
  | .file size result =>
      match size with
      | .cmp op sz =>
          let cmpRes := match op with
            | .equal => byte_arr.length == sz
            | .less => decide (byte_arr.length < sz)
            | .greater => decide (byte_arr.length > sz)
          some (cmpRes == result)
      | .po2 po2float =>
          match check_po2 po2float byte_arr with
          | Option.none => Option.none
          | some b => some (b == result)

/-- A header rule as stored by Rule.__init__ of header.py: offsets already
parsed from hex, end_offset = 0 encoding EOF (header.py line 160). -/
structure Rule where
  start_offset : Nat
  end_offset : Nat
  operation : Operation
  tests : List HTest

/-- Embeds Rule.__none of header.py: the addressed slice of the buffer. -/
def Rule.noneSlice (r : Rule) (byte_arr : List Nat) : List Nat :=
  if r.end_offset = 0 then byte_arr.drop r.start_offset
  else (byte_arr.take r.end_offset).drop r.start_offset

/-- Embeds Rule.apply of header.py: dispatches on the operation. -/
def Rule.apply (r : Rule) (byte_arr : List Nat) : List Nat :=
  match r.operation with
  | .none => r.noneSlice byte_arr
  | .bitswap => (r.noneSlice byte_arr).reverse
  | .byteswap => invert_bytes (r.noneSlice byte_arr) 2
  | .wordswap => invert_bytes (r.noneSlice byte_arr) 4

/-- Embeds the loop of Rule.test of header.py:

    for test in self.__tests:
        if not test.apply(byte_arr):
            return False
    return True

A test that raises propagates the exception (none). -/
def testList (ts : List HTest) (byte_arr : List Nat) : Option Bool :=
  match ts with
  | [] => some true
  | t :: rest =>
      match t.apply byte_arr with
      | Option.none => Option.none
      | some false => some false
      | some true => testList rest byte_arr

/-- Rule.test of header.py. -/
def Rule.test (r : Rule) (byte_arr : List Nat) : Option Bool :=
  testList r.tests byte_arr

/-! ## SHA-1

generate.py hashes with hashlib.sha1 (an external collaborator); the
algorithm is the standard SHA-1 (FIPS 180-4), implemented here over byte
lists with Nat arithmetic taken mod 2^32. -/

/-- Left rotation of a 32-bit word by k bits. -/
def rotl32 (k n : Nat) : Nat :=
  Nat.lor ((n <<< k) % 4294967296) (n >>> (32 - k))

/-- Big-endian byte encoding of n on k bytes. -/
def toBytesBE (k n : Nat) : List Nat :=
  (List.range k).map (fun i => (n >>> (8 * (k - 1 - i))) % 256)

/-- SHA-1 message padding: append 0x80, zero bytes to 56 mod 64, then the
bit length on 8 big-endian bytes. -/
def sha1Pad (msg : List Nat) : List Nat :=
  msg ++ [128] ++ List.replicate ((119 - msg.length % 64) % 64) 0
    ++ toBytesBE 8 (msg.length * 8)

/-- Extends the 16 schedule words of a block to 80. -/
def sha1Extend (w : List Nat) : List Nat :=
  (List.range 64).foldl (fun ws _ =>
    ws ++ [rotl32 1 (Nat.xor
      (Nat.xor (ws.getD (ws.length - 3) 0) (ws.getD (ws.length - 8) 0))
      (Nat.xor (ws.getD (ws.length - 14) 0) (ws.getD (ws.length - 16) 0)))]) w

/-- The round function of SHA-1. -/
def sha1F (i b c d : Nat) : Nat :=
  if i < 20 then Nat.lor (Nat.land b c) (Nat.land (Nat.xor b 4294967295) d)
  else if i < 40 then Nat.xor (Nat.xor b c) d
  else if i < 60 then Nat.lor (Nat.lor (Nat.land b c) (Nat.land b d)) (Nat.land c d)
  else Nat.xor (Nat.xor b c) d

/-- The round constants of SHA-1. -/
def sha1K (i : Nat) : Nat :=
  if i < 20 then 1518500249
  else if i < 40 then 1859775393
  else if i < 60 then 2400959708
  else 3395469782

/-- Processes one 64-byte block, updating the five state words. -/
def sha1Block (h : Nat × Nat × Nat × Nat × Nat) (block : List Nat) :
    Nat × Nat × Nat × Nat × Nat :=
  let w := sha1Extend ((chunksOf 4 block).map fromBytesBE)
  let st := (List.range 80).foldl (fun st i =>
    let temp := (rotl32 5 st.1 + sha1F i st.2.1 st.2.2.1 st.2.2.2.1
      + st.2.2.2.2 + sha1K i + w.getD i 0) % 4294967296
    (temp, st.1, rotl32 30 st.2.1, st.2.2.1, st.2.2.2.1)) h
  ((h.1 + st.1) % 4294967296, (h.2.1 + st.2.1) % 4294967296,
   (h.2.2.1 + st.2.2.1) % 4294967296, (h.2.2.2.1 + st.2.2.2.1) % 4294967296,
   (h.2.2.2.2 + st.2.2.2.2) % 4294967296)

/-- SHA-1 digest of a byte list, as its 20 bytes. -/
def sha1 (msg : List Nat) : List Nat :=
  let h := (chunksOf 64 (sha1Pad msg)).foldl sha1Block
    (1732584193, 4023233417, 2562383102, 271733878, 3285377520)
  toBytesBE 4 h.1 ++ toBytesBE 4 h.2.1 ++ toBytesBE 4 h.2.2.1
    ++ toBytesBE 4 h.2.2.2.1 ++ toBytesBE 4 h.2.2.2.2

/-- One lowercase hex character. -/
def hexChar (n : Nat) : Char :=
  if n < 10 then Char.ofNat (48 + n) else Char.ofNat (87 + n)

/-- Lowercase hex string of a byte list: hexdigest().lower() of generate.py
(hashlib's hexdigest is already lowercase). -/
def hexOfBytes (l : List Nat) : String :=
  String.mk ((l.map (fun b => [hexChar (b / 16), hexChar (b % 16)])).flatten)

/-- The digest string computed by generate.py for a byte payload. -/
def sha1hex (msg : List Nat) : String :=
  hexOfBytes (sha1 msg)

/-! ## modules/utils.py -/

/-- Embeds get_index of modules/utils.py: ls.index(item) guarded by
truthiness of ls and a ValueError handler returning the default. -/
def get_index (ls : List String) (item : String) (default : Int) : Int :=
  if ls.isEmpty then default
  else if item ∈ ls then (ls.indexOf item : Int)
  else default

/-- Embeds check_in_pattern_list of modules/utils.py.  A compiled regular
expression is abstracted as the boolean predicate "pattern.search(name) is
truthy", the only use the sources make of it. -/
def check_in_pattern_list (name : String) (patterns : List (String → Bool)) : Bool :=
  patterns.any (fun p => p name)

/-- Embeds to_int_list of modules/utils.py: one signed integer per character
of the string. -/
def to_int_list (string : String) (multiplier : Int) : List Int :=
  string.data.map (fun x => multiplier * (x.toNat : Int))

/-- A rom record of the DAT (modules/datafile, consumed by GameEntry). -/
structure Rom where
  name : String
  sha1 : String
deriving DecidableEq, Repr

/-- Score of classes.py. -/
structure Score where
  region : Int
  languages : Int
  revision : List Int
  version : List Int
  sample : List Int
  demo : List Int
  beta : List Int
  proto : List Int
deriving DecidableEq, Repr

/-- GameEntry of classes.py.  In Python the score field starts as None and
is populated by set_scores before any read; the model represents the
populated state. -/
structure GameEntry where
  is_bad : Bool
  is_prerelease : Bool
  region : String
  languages : List String
  input_index : Nat
  revision : String
  version : String
  sample : String
  demo : String
  beta : String
  proto : String
  is_parent : Bool
  name : String
  roms : List Rom
  score : Score
deriving DecidableEq, Repr

/-- GameEntryKeyGenerator of classes.py, with compiled patterns abstracted
as boolean predicates on names. -/
structure GameEntryKeyGenerator where
  prioritize_languages : Bool
  prefer_prereleases : Bool
  prefer_parents : Bool
  input_order : Bool
  prefer : List (String → Bool)
  avoid : List (String → Bool)

/-- The type of the 16-component sort key produced by
GameEntryKeyGenerator.generate, with Python's tuple and list comparison
semantics: lexicographic products, False < True on booleans, and
lexicographic order on integer lists. -/
abbrev GameKey :=
  Bool ×ₗ Bool ×ₗ Bool ×ₗ Int ×ₗ Int ×ₗ Bool ×ₗ Int ×ₗ Bool ×ₗ
    List Int ×ₗ List Int ×ₗ List Int ×ₗ List Int ×ₗ List Int ×ₗ List Int ×ₗ
    Int ×ₗ Bool

/-- Embeds GameEntryKeyGenerator.generate of classes.py. -/
def GameEntryKeyGenerator.generate (kg : GameEntryKeyGenerator) (g : GameEntry) :
    GameKey :=
  toLex (g.is_bad,
   toLex (xor kg.prefer_prereleases g.is_prerelease,
    toLex (check_in_pattern_list g.name kg.avoid,
     toLex ((if kg.prioritize_languages then g.score.languages else g.score.region),
      toLex ((if kg.prioritize_languages then g.score.region else g.score.languages),
       toLex (kg.prefer_parents && !g.is_parent,
        toLex ((if kg.input_order then (g.input_index : Int) else 0),
         toLex (!check_in_pattern_list g.name kg.prefer,
          toLex (g.score.revision,
           toLex (g.score.version,
            toLex (g.score.sample,
             toLex (g.score.demo,
              toLex (g.score.beta,
               toLex (g.score.proto,
                toLex (-(g.languages.length : Int),
                 !g.is_parent)))))))))))))))

/-! ## generate.py : scoring, padding, filtering, hashing, merging -/

/-- The UNSELECTED sentinel of generate.py. -/
def UNSELECTED : Int := 10000

/-- The default maximum file size for header processing (generate.py). -/
def MAX_FILE_SIZE : Nat := 268435456

/-- Embeds the body of the set_scores loop of generate.py for one game:
the Score record assigned to game.score. -/
def scoreOf (selected_regions selected_languages : List String)
    (language_weight : Int) (revision_asc version_asc : Bool)
    (game : GameEntry) : Score :=
  { region := get_index selected_regions game.region UNSELECTED
    languages := (game.languages.map (fun lang =>
      (get_index selected_languages lang (-1) + 1) * (-language_weight))).sum
    revision := to_int_list game.revision (if revision_asc then 1 else -1)
    version := to_int_list game.version (if version_asc then 1 else -1)
    sample := to_int_list game.sample (-1)
    demo := to_int_list game.demo (-1)
    beta := to_int_list game.beta (-1)
    proto := to_int_list game.proto (-1) }

/-- Embeds set_scores of generate.py (functionally: each entry's score
field is replaced). -/
def set_scores (games : List GameEntry) (selected_regions selected_languages : List String)
    (language_weight : Int) (revision_asc version_asc : Bool) : List GameEntry :=
  games.map (fun g =>
    { g with score := (scoreOf selected_regions selected_languages language_weight
        revision_asc version_asc g) })

/-- Embeds include_candidate of generate.py main. -/
def include_candidate (only_selected_lang all_regions_with_lang all_regions : Bool)
    (x : GameEntry) : Bool :=
  if only_selected_lang && decide (x.score.languages ≥ 0) then false
  else if all_regions_with_lang && decide (x.score.languages < 0) then true
  else if all_regions then true
  else x.score.region != UNSELECTED

/-- Embeds the filter pass at the include_candidate call site of
generate.py main:

    if not all_regions:
        entries = [x for x in entries if include_candidate(x)]
-/
def filter_entries (only_selected_lang all_regions_with_lang all_regions : Bool)
    (entries : List GameEntry) : List GameEntry :=
  if !all_regions then
    entries.filter (include_candidate only_selected_lang all_regions_with_lang all_regions)
  else entries

/-- Embeds the rule loop of compute_hash of generate.py:

    for rule in RULES:
        if rule.test(file_bytes):
            file_bytes = rule.apply(file_bytes)

A test that raises propagates (none). -/
def applyRules (rules : List Rule) (file_bytes : List Nat) : Option (List Nat) :=
  match rules with
  | [] => some file_bytes
  | r :: rest =>
      match r.test file_bytes with
      | Option.none => Option.none
      | some true => applyRules rest (r.apply file_bytes)
      | some false => applyRules rest file_bytes

/-- Embeds compute_hash of generate.py: the header-rule path when rules are
loaded and the size is within the cap, otherwise the chunked read (whose
digest is the SHA-1 of the same byte stream). -/
def compute_hash (rules : List Rule) (file_size : Nat) (file_bytes : List Nat) :
    Option String :=
  if rules.isEmpty = false ∧ file_size ≤ MAX_FILE_SIZE then
    (applyRules rules file_bytes).map sha1hex
  else some (sha1hex file_bytes)

/-- A path reported by a worker, with the result of the zipfile.is_zipfile
probe (an external collaborator) attached. -/
structure ScannedPath where
  path : String
  isZip : Bool
deriving DecidableEq, Repr

/-- Lookup in the Digest-to-Path dict, modelled as an association list in
insertion order. -/
def dictLookup (m : List (String × Option ScannedPath)) (k : String) :
    Option (Option ScannedPath) :=
  (m.find? (fun p => p.1 == k)).map (fun p => p.2)

/-- In-place update of an existing key of the dict. -/
def dictSet (m : List (String × Option ScannedPath)) (k : String)
    (v : Option ScannedPath) : List (String × Option ScannedPath) :=
  m.map (fun p => if p.1 == k then (p.1, v) else p)

/-- Embeds one iteration of the merge loop of index_files of generate.py:

    if key in result and not \
            (result[key] and is_zipfile(result[key])):
        result[key] = value

(result[key] is None or a Path; Path objects are always truthy). -/
def merge_step (result : List (String × Option ScannedPath))
    (kv : String × ScannedPath) : List (String × Option ScannedPath) :=
  match dictLookup result kv.1 with
  | Option.none => result
  | some cur =>
      if (match cur with | Option.none => true | some p => !p.isZip) then
        dictSet result kv.1 (some kv.2)
      else result

/-- Embeds the full merge of worker results of index_files of generate.py
(result holds one None entry per DAT digest before merging). -/
def index_files_merge (result : List (String × Option ScannedPath))
    (intermediate_results : List (List (String × ScannedPath))) :
    List (String × Option ScannedPath) :=
  intermediate_results.foldl (fun res interm => interm.foldl merge_step res) result

/-! ## generate.py main : argument validation (lines 656-697) -/

/-- The values of the local variables of main after the option loop, i.e.
one parsed argument set. -/
structure Args where
  no_scan : Bool
  input_dir : Option String
  file_extension : String
  dat_file : Option String
  selected_regions : List String
  revision_asc : Bool
  version_asc : Bool
  input_order : Bool
  prefer_parents : Bool
  output_dir : Option String
  ignore_case : Bool
  regex : Bool
  prefer_str : String
  avoid_str : String
  exclude_str : String
  all_regions : Bool
  all_regions_with_lang : Bool
  threads : Int
  max_file_size : Int
deriving DecidableEq, Repr

/-- External interaction during validation: the answer to the
"No input directory was provided ... continue anyway?" prompt. -/
structure Env where
  user_confirms : Bool
deriving DecidableEq, Repr

/-- How the validation phase of main ends: silent exit after a refused
prompt (sys.exit() with status 0), fatal exit printing the usage text
(sys.exit(help_msg(...))), or fall-through towards pattern-list parsing,
DAT validation and indexing. -/
inductive MainOutcome where
  | promptRefused
  | usageExit (msg : String)
  | proceed
deriving DecidableEq, Repr

/-- Embeds the validation chain of main of generate.py between the option
loop and the pattern-list parsing (the prompt at lines 656-663 and the
checks at lines 664-697).  Python truthiness tests are rendered as
propositions; use_hashes = bool(not no_scan and input_dir) is inlined into
the extension check. -/
def main_checks (a : Args) (env : Env) : MainOutcome :=
  if a.no_scan = false ∧ a.input_dir = Option.none ∧ env.user_confirms = false then
    .promptRefused
  else if a.file_extension ≠ "" ∧ a.no_scan = false ∧ a.input_dir ≠ Option.none then
    .usageExit ("extensions cannot be used when scanning")
  else if a.dat_file = Option.none then .usageExit ("DAT file is required")
  else if a.selected_regions = [] then .usageExit ("invalid region selection")
  else if (a.revision_asc = true ∨ a.version_asc = true) ∧ a.input_order = true then
    .usageExit ("early-revisions and early-versions are mutually exclusive with input-order")
  else if (a.revision_asc = true ∨ a.version_asc = true) ∧ a.prefer_parents = true then
    .usageExit ("early-revisions and early-versions are mutually exclusive with prefer-parents")
  else if a.prefer_parents = true ∧ a.input_order = true then
    .usageExit ("prefer-parents is mutually exclusive with input-order")
  else if a.output_dir ≠ Option.none ∧ a.input_dir = Option.none then
    .usageExit ("output-dir requires an input-dir")
  else if a.ignore_case = true ∧ a.prefer_str = "" ∧ a.avoid_str = "" ∧ a.exclude_str = "" then
    .usageExit ("ignore-case only works with a prefer, avoid or exclude list")
  else if a.regex = true ∧ a.prefer_str = "" ∧ a.avoid_str = "" ∧ a.exclude_str = "" then
    .usageExit ("regex only works with a prefer, avoid or exclude list")
  else if a.all_regions = true ∧ a.all_regions_with_lang = true then
    .usageExit ("all-regions is mutually exclusive with all-regions-with-lang")
  else if a.threads ≤ 0 then .usageExit ("Number of threads should be > 0")
  else if a.max_file_size ≤ 0 then .usageExit ("Maximum file size should be > 0")
  else .proceed

/-! ## Concrete fixtures used by witnesses and counterexamples -/

/-- A rule with no tests, operation bitswap, start_offset 0, end_offset EOF
(parsed as 0, header.py line 160). -/
def bitswapRule : Rule :=
  { start_offset := 0, end_offset := 0, operation := .bitswap, tests := [] }

/-- A rule whose only test is a FileTest with size attribute PO2 (result
defaulting to true), on a platform whose float verdict is po2float. -/
def po2Rule (po2float : Nat → Bool) : Rule :=
  { start_offset := 0, end_offset := 0, operation := .none,
    tests := [HTest.file (SizeSpec.po2 po2float) true] }

/-- A concrete stand-in for the platform float predicate, agreeing with the
CPython observation po2float (2 ^ 29) = false; used only to instantiate
hypotheses in the claim C10 witness. -/
def po2floatStub : Nat → Bool := fun n => decide (n ≠ 2 ^ 29)

/-- An all-default score record. -/
def score0 : Score :=
  { region := 0, languages := 0, revision := [], version := [], sample := [],
    demo := [], beta := [], proto := [] }

/-- A concrete candidate. -/
def entryA : GameEntry :=
  { is_bad := false, is_prerelease := false, region := "USA", languages := ["en"],
    input_index := 0, revision := "0", version := "0", sample := "Z", demo := "Z",
    beta := "Z", proto := "Z", is_parent := true, name := "Game A", roms := [],
    score := score0 }

/-- A candidate differing from entryA only in its name (the name enters the
sort key only through the avoid and prefer pattern lists). -/
def entryB : GameEntry := { entryA with name := "Game B" }

/-- A candidate with languages score 0 (no selected language present) and
an unselected region. -/
def entryNoLang : GameEntry :=
  { entryA with score := ({ score0 with languages := 0, region := UNSELECTED }) }

/-- A key generator with all options off and empty pattern lists. -/
def kg0 : GameEntryKeyGenerator :=
  { prioritize_languages := false, prefer_prereleases := false,
    prefer_parents := false, input_order := false, prefer := [], avoid := [] }

/-- A bare (non-archive) scanned path. -/
def bareFile : ScannedPath := { path := "rom.bin", isZip := false }

/-- An archive scanned path. -/
def zipFile : ScannedPath := { path := "rom.zip", isZip := true }

/-- A second bare scanned path. -/
def bareFile2 : ScannedPath := { path := "other.bin", isZip := false }

/-- An argument set that combines the mutually exclusive flags all-regions
and all-regions-with-lang, with no input directory and scanning enabled. -/
def argsExclusive : Args :=
  { no_scan := false, input_dir := Option.none, file_extension := "",
    dat_file := some ("games.dat"), selected_regions := ["USA"],
    revision_asc := false, version_asc := false, input_order := false,
    prefer_parents := false, output_dir := Option.none, ignore_case := false,
    regex := false, prefer_str := "", avoid_str := "", exclude_str := "",
    all_regions := true, all_regions_with_lang := true, threads := 4,
    max_file_size := 268435456 }

set_option maxRecDepth 100000

/-! ## Sanity checks of the SHA-1 implementation against published vectors -/

/-- SHA-1 of the empty message (FIPS 180 test vector). -/
theorem sha1hex_empty : sha1hex [] = "da39a3ee5e6b4b0d3255bfef95601890afd80709" := by
  decide

/-- SHA-1 of the ASCII bytes of abc (FIPS 180 test vector). -/
theorem sha1hex_abc : sha1hex [97, 98, 99] = "a9993e364706816aba3e25717850c26c9cd0d89d" := by
  decide

/-! ## Claims -/

/-- Claim C1.  The claim states that only the first rule all of whose tests
pass is applied before hashing.  The rule loop of compute_hash has no break:
with two test-less bitswap rules loaded, both transforms are applied (each
rule's tests pass vacuously), the buffer [1,2,3] is reversed twice, and the
computed digest is the SHA-1 of the original buffer, not of the once
reversed buffer that applying only the first matching rule would produce. -/
theorem claim_C1 :
    applyRules [bitswapRule, bitswapRule] [1, 2, 3] = some [1, 2, 3] ∧
    applyRules [bitswapRule] [1, 2, 3] = some [3, 2, 1] ∧
    compute_hash [bitswapRule, bitswapRule] 3 [1, 2, 3] = some (sha1hex [1, 2, 3]) ∧
    sha1hex [1, 2, 3] ≠ sha1hex [3, 2, 1] := by
  refine ⟨by decide, by decide, by decide, by decide⟩

/-- Claim C2.  The claim states that a bare file is preferred over an
archive and that the first-seen path wins within the same class.  The merge
loop of index_files overwrites whenever the current value is None or not an
archive, so an archive always wins over a bare file regardless of report
order, and between two bare files the last-seen wins. -/
theorem claim_C2 :
    index_files_merge [("d1", Option.none)] [[("d1", bareFile)], [("d1", zipFile)]]
      = [("d1", some zipFile)] ∧
    index_files_merge [("d1", Option.none)] [[("d1", zipFile)], [("d1", bareFile)]]
      = [("d1", some zipFile)] ∧
    index_files_merge [("d1", Option.none)] [[("d1", bareFile)], [("d1", bareFile2)]]
      = [("d1", some bareFile2)] := by
  refine ⟨by decide, by decide, by decide⟩

/-- Claim C3.  The claim states that with only_selected_lang enabled every
candidate with languages score at least 0 is dropped even when all_regions
is enabled.  The filter call site is guarded by "if not all_regions", so
with all_regions enabled no candidate is dropped at all, even though
include_candidate itself would reject the candidate. -/
theorem claim_C3 :
    filter_entries true false true [entryNoLang] = [entryNoLang] ∧
    include_candidate true false true entryNoLang = false ∧
    entryNoLang.score.languages ≥ 0 := by
  refine ⟨by decide, by decide, by decide⟩

/-- Python range(0, 0, -c) is empty. -/
theorem rangeDown_zero (c : Nat) : rangeDown 0 c = [] := by
  unfold rangeDown
  rcases Nat.eq_zero_or_pos c with h | h
  · simp [h]
  · rw [if_neg h.ne', Nat.zero_add, Nat.div_eq_of_lt (by omega), List.range_zero,
      List.map_nil]

/-- A single loop iteration remains when 0 < n <= c. -/
theorem rangeDown_single (n c : Nat) (hn : 0 < n) (hnc : n ≤ c) :
    rangeDown n c = [n] := by
  have hc : 0 < c := lt_of_lt_of_le hn hnc
  unfold rangeDown
  rw [if_neg hc.ne']
  have h1 : n + c - 1 = (n - 1) + c := by omega
  rw [h1, Nat.add_div_right _ hc, Nat.div_eq_of_lt (by omega), Nat.zero_add]
  simp [List.range_succ]

/-- Unfolding lemma for rangeDown. -/
theorem rangeDown_succ (n c : Nat) (hc : 0 < c) (hn : 0 < n) :
    rangeDown n c = n :: rangeDown (n - c) c := by
  unfold rangeDown
  rw [if_neg hc.ne', if_neg hc.ne']
  have h1 : (n + c - 1) / c = (n - 1) / c + 1 := by
    have e : n + c - 1 = (n - 1) + c := by omega
    rw [e, Nat.add_div_right _ hc]
  have h2 : (n - c + c - 1) / c = (n - 1) / c := by
    rcases Nat.lt_or_ge n c with h | h
    · have e1 : n - c = 0 := by omega
      rw [e1, Nat.zero_add, Nat.div_eq_of_lt (by omega), Nat.div_eq_of_lt (by omega)]
    · have e : n - c + c - 1 = n - 1 := by omega
      rw [e]
  rw [h1, h2, List.range_succ_eq_map, List.map_cons, List.map_map]
  congr 1
  · simp
  · refine List.map_congr_left (fun j _ => ?_)
    simp only [Function.comp_apply]
    have e : Nat.succ j * c = j * c + c := Nat.succ_mul j c
    rw [e]
    omega

/-- chunksOf of an empty list. -/
theorem chunksOf_nil (c : Nat) : chunksOf c [] = [] := by
  unfold chunksOf
  rcases Nat.eq_zero_or_pos c with h | h
  · simp [h]
  · rw [if_neg h.ne']
    simp only [List.length_nil, Nat.zero_add]
    rw [Nat.div_eq_of_lt (by omega), List.range_zero, List.map_nil]

/-- Unfolding lemma for chunksOf. -/
theorem chunksOf_cons (c : Nat) (l : List Nat) (hc : 0 < c) (hl : l ≠ []) :
    chunksOf c l = l.take c :: chunksOf c (l.drop c) := by
  have hn : 0 < l.length := List.length_pos.mpr hl
  unfold chunksOf
  rw [if_neg hc.ne', if_neg hc.ne']
  have h1 : (l.length + c - 1) / c = (l.length - 1) / c + 1 := by
    have e : l.length + c - 1 = (l.length - 1) + c := by omega
    rw [e, Nat.add_div_right _ hc]
  have h2 : ((l.drop c).length + c - 1) / c = (l.length - 1) / c := by
    simp only [List.length_drop]
    rcases Nat.lt_or_ge l.length c with h | h
    · have e1 : l.length - c = 0 := by omega
      rw [e1, Nat.zero_add, Nat.div_eq_of_lt (by omega), Nat.div_eq_of_lt (by omega)]
    · have e : l.length - c + c - 1 = l.length - 1 := by omega
      rw [e]
  rw [h1, h2, List.range_succ_eq_map, List.map_cons, List.map_map]
  congr 1
  · simp
  · refine List.map_congr_left (fun j _ => ?_)
    simp only [Function.comp_apply, List.drop_drop]
    have e : Nat.succ j * c = c + j * c := by
      rw [Nat.succ_mul]
      omega
    rw [e]

/-- chunksOf distributes over an append whose left part is whole chunks. -/
theorem chunksOf_append (c : Nat) (hc : 0 < c) :
    ∀ (k : Nat) (l₁ l₂ : List Nat), l₁.length = k * c →
      chunksOf c (l₁ ++ l₂) = chunksOf c l₁ ++ chunksOf c l₂ := by
  intro k
  induction k with
  | zero =>
    intro l₁ l₂ h
    have : l₁ = [] := List.eq_nil_of_length_eq_zero (by simpa using h)
    subst this
    simp [chunksOf_nil]
  | succ k ih =>
    intro l₁ l₂ h
    have hkc : (k + 1) * c = k * c + c := by ring
    have hne : l₁ ≠ [] := by
      intro e
      subst e
      simp at h
      omega
    have hcle : c ≤ l₁.length := by omega
    by_cases hl2 : l₁ ++ l₂ = []
    · rcases List.append_eq_nil.mp hl2 with ⟨e1, _⟩
      exact absurd e1 hne
    rw [chunksOf_cons c (l₁ ++ l₂) hc hl2,
      List.take_append_of_le_length hcle, List.drop_append_of_le_length hcle,
      ih (l₁.drop c) l₂ (by simp only [List.length_drop]; omega),
      chunksOf_cons c l₁ hc hne, List.cons_append]

/-- A list of exactly one chunk. -/
theorem chunksOf_single (c : Nat) (l : List Nat) (hc : 0 < c) (h : l.length = c) :
    chunksOf c l = [l] := by
  have hne : l ≠ [] := by
    intro e
    subst e
    simp at h
    omega
  rw [chunksOf_cons c l hc hne, List.take_of_length_le (by omega),
    List.drop_eq_nil_of_le (by omega), chunksOf_nil]

/-- A Python slice with in-range nonnegative endpoints. -/
theorem pySlice_nat (b : List Nat) (i j : Nat) (hi : i ≤ b.length) (hj : j ≤ b.length) :
    pySlice b (i : Int) (j : Int) = (b.take j).drop i := by
  unfold pySlice pyIndex
  rw [if_neg (by omega), if_neg (by omega)]
  simp only [Int.toNat_natCast]
  rw [min_eq_left hj, min_eq_left hi]

/-- Loop invariant of Rule.__invert_bytes: the processed iterations produce
the whole chunks above index r in reversed order, plus the final slice of the
last iteration when r > 0. -/
theorem invertAux (b : List Nat) (c r : Nat) (hc : 0 < c) (hr : r < c) :
    ∀ k, r + k * c ≤ b.length →
      ((rangeDown (r + k * c) c).map
        (fun (i : Nat) => pySlice b ((i : Int) - (c : Int)) (i : Int))).flatten
      = ((chunksOf c ((b.take (r + k * c)).drop r)).reverse).flatten
        ++ (if r = 0 then [] else pySlice b ((r : Int) - (c : Int)) (r : Int)) := by
  intro k
  induction k with
  | zero =>
    intro hk
    simp only [Nat.zero_mul, Nat.add_zero] at hk ⊢
    have hdrop : (b.take r).drop r = [] :=
      List.drop_eq_nil_of_le (by simp [List.length_take])
    rw [hdrop, chunksOf_nil]
    simp only [List.reverse_nil, List.flatten_nil, List.nil_append]
    by_cases hr0 : r = 0
    · subst hr0
      rw [rangeDown_zero, List.map_nil, List.flatten_nil, if_pos rfl]
    · rw [rangeDown_single r c (by omega) (le_of_lt hr), List.map_cons, List.map_nil,
        List.flatten_cons, List.flatten_nil, List.append_nil, if_neg hr0]
  | succ k ih =>
    intro hk
    have hkc : (k + 1) * c = k * c + c := by ring
    have hprev : r + k * c ≤ b.length := by omega
    have hipos : 0 < r + (k + 1) * c := by omega
    have hsub : r + (k + 1) * c - c = r + k * c := by omega
    rw [rangeDown_succ _ c hc hipos, hsub, List.map_cons, List.flatten_cons, ih hprev]
    have hcast : ((r + (k + 1) * c : Nat) : Int) - (c : Int)
        = ((r + k * c : Nat) : Int) := by omega
    rw [hcast, pySlice_nat b (r + k * c) (r + (k + 1) * c) (by omega) (by omega)]
    have hm1len : ((b.take (r + k * c)).drop r).length = k * c := by
      simp [List.length_take]
      omega
    have hm2 : (b.take (r + (k + 1) * c)).drop (r + k * c)
        = ((b.take (r + (k + 1) * c)).drop r).drop (k * c) := by
      rw [List.drop_drop]
    have hm2len : ((b.take (r + (k + 1) * c)).drop (r + k * c)).length = c := by
      simp [List.length_take]
      omega
    have hsplitm : (b.take (r + k * c)).drop r
          ++ (b.take (r + (k + 1) * c)).drop (r + k * c)
        = (b.take (r + (k + 1) * c)).drop r := by
      rw [hm2]
      have htt : (b.take (r + k * c)).drop r
          = ((b.take (r + (k + 1) * c)).drop r).take (k * c) := by
        rw [List.take_drop, List.take_take, min_eq_left (by omega)]
      rw [htt, List.take_append_drop]
    rw [← hsplitm,
      chunksOf_append c hc k ((b.take (r + k * c)).drop r) _ hm1len,
      chunksOf_single c _ hc hm2len, List.reverse_append]
    simp only [List.reverse_cons, List.reverse_nil, List.nil_append,
      List.flatten_append, List.flatten_cons, List.flatten_nil, List.append_nil,
      List.append_assoc]

/-- Full characterization of Rule.__invert_bytes for a positive chunk size:
when the buffer is shorter than one chunk the result is the suffix starting
at index 2 len - c (clamped), i.e. the whole buffer only when len <= c - len;
otherwise the whole chunks (aligned to the end of the buffer) in reversed
order, the leading len mod c bytes being dropped. -/
theorem invert_bytes_eq (b : List Nat) (c : Nat) (hc : 0 < c) :
    invert_bytes b c =
      if b.length < c then b.drop (2 * b.length - c)
      else ((chunksOf c (b.drop (b.length % c))).reverse).flatten := by
  by_cases h : b.length < c
  · rw [if_pos h]
    by_cases h0 : b.length = 0
    · have : b = [] := List.eq_nil_of_length_eq_zero h0
      subst this
      simp [invert_bytes, rangeDown_zero]
    · unfold invert_bytes
      rw [rangeDown_single b.length c (by omega) (le_of_lt h), List.map_cons,
        List.map_nil, List.flatten_cons, List.flatten_nil, List.append_nil]
      unfold pySlice pyIndex
      rw [if_pos (by omega), if_neg (by omega)]
      simp only [Int.toNat_natCast]
      rw [min_self, List.take_length]
      refine congrArg₂ _ ?_ rfl
      omega
  · push_neg at h
    rw [if_neg (by omega)]
    have hr : b.length % c < c := Nat.mod_lt _ hc
    have hdecomp : b.length % c + (b.length / c) * c = b.length := by
      rw [Nat.mod_add_div']
    unfold invert_bytes
    rw [← hdecomp]
    rw [invertAux b c (b.length % c) hc hr (b.length / c) (by omega)]
    rw [hdecomp, List.take_length]
    by_cases hr0 : b.length % c = 0
    · rw [if_pos hr0, List.append_nil]
    · rw [if_neg hr0]
      have hnil : pySlice b (((b.length % c : Nat) : Int) - (c : Int))
          ((b.length % c : Nat) : Int) = [] := by
        unfold pySlice pyIndex
        rw [if_pos (by omega), if_neg (by omega)]
        refine List.drop_eq_nil_of_le ?_
        simp only [List.length_take]
        omega
      rw [hnil, List.append_nil]

/-- Claim C4 (amended).  Both chunked operations (byteswap, chunk 2;
wordswap, chunk 4) reverse whole chunks iterating from the slice end
backwards, but a trailing partial chunk is not preserved: when the slice
holds at least one full chunk, the len mod chunk leading bytes are dropped
(the output is shorter than the input); when the slice is shorter than one
chunk, the output is its suffix starting at index 2 len - chunk. -/
theorem claim_C4 (b : List Nat) (c : Nat) (h : c = 2 ∨ c = 4) :
    invert_bytes b c =
      if b.length < c then b.drop (2 * b.length - c)
      else ((chunksOf c (b.drop (b.length % c))).reverse).flatten := by
  rcases h with rfl | rfl
  · exact invert_bytes_eq b 2 (by omega)
  · exact invert_bytes_eq b 4 (by omega)

/-- Claim C4 witness: byteswap of an odd-length buffer of five bytes. -/
theorem claim_C4_witness :
    ((2 : Nat) = 2 ∨ (2 : Nat) = 4) ∧
    invert_bytes [1, 2, 3, 4, 5] 2 =
      (if ([1, 2, 3, 4, 5] : List Nat).length < 2 then
        ([1, 2, 3, 4, 5] : List Nat).drop (2 * ([1, 2, 3, 4, 5] : List Nat).length - 2)
      else ((chunksOf 2 (([1, 2, 3, 4, 5] : List Nat).drop
        (([1, 2, 3, 4, 5] : List Nat).length % 2))).reverse).flatten) :=
  ⟨Or.inl rfl, claim_C4 [1, 2, 3, 4, 5] 2 (Or.inl rfl)⟩

/-- Claim C4 counterexample: byteswap of [1,2,3] yields [2,3]: the partial
chunk [1] is dropped, and the output length differs from the input length,
contradicting the claim as stated. -/
theorem claim_C4_cex :
    invert_bytes [1, 2, 3] 2 = [2, 3] ∧
    (invert_bytes [1, 2, 3] 2).length ≠ ([1, 2, 3] : List Nat).length := by
  refine ⟨by decide, by decide⟩

/-- Claim C8.  A rule with no tests, operation bitswap, start_offset 0 and
end_offset EOF reverses the whole buffer; on [1,2,3] it yields [3,2,1], and
compute_hash with this single rule loaded digests the reversed buffer. -/
theorem claim_C8 :
    (∀ b : List Nat, bitswapRule.apply b = b.reverse) ∧
    bitswapRule.apply [1, 2, 3] = [3, 2, 1] ∧
    compute_hash [bitswapRule] 3 [1, 2, 3] = some (sha1hex [3, 2, 1]) := by
  refine ⟨fun b => ?_, by decide, by decide⟩
  simp [bitswapRule, Rule.apply, Rule.noneSlice]

/-- The bounded search of isPow2 decides exactly the power-of-two predicate. -/
theorem isPow2_iff (n : Nat) : isPow2 n = true ↔ ∃ k, n = 2 ^ k := by
  simp only [isPow2, List.any_eq_true, List.mem_range, beq_iff_eq]
  constructor
  · rintro ⟨k, _, hk⟩
    exact ⟨k, hk⟩
  · rintro ⟨k, hk⟩
    exact ⟨k, by calc k < 2 ^ k := Nat.lt_two_pow k
                    _ = n := hk.symm
                    _ < n + 1 := Nat.lt_succ_self n, hk⟩

/-- Claim C10.  A rule whose test list holds a FileTest with size PO2
raises on the empty buffer (math.log(0, 2) is a domain error), so test
evaluation is not total, as the claim states.  However, on a non-empty
buffer the test returns exactly the verdict of the platform's
floating-point computation log(len, 2).is_integer() (the abstract
po2float), not the power-of-two predicate the PO2 literal stands for: on a
platform whose float verdict is false at 2 ^ 29 -- CPython computes
log(2 ** 29, 2) = 29.000000000000004 -- the test reports a genuine
power-of-two buffer of 2 ^ 29 bytes (reachable by raising --max-file-size)
as not PO2. -/
theorem claim_C10 (po2float : Nat → Bool) :
    (po2Rule po2float).test [] = Option.none ∧
    (∀ b : List Nat, b ≠ [] →
      (po2Rule po2float).test b = some (po2float b.length)) ∧
    (po2float (2 ^ 29) = false →
      (po2Rule po2float).test (List.replicate (2 ^ 29) 0) = some false ∧
      isPow2 (2 ^ 29) = true) := by
  have hmain : ∀ b : List Nat, b ≠ [] →
      (po2Rule po2float).test b = some (po2float b.length) := by
    intro b hb
    have hlen : b.length ≠ 0 := by simpa [List.length_eq_zero] using hb
    cases h : po2float b.length <;>
      simp [po2Rule, Rule.test, testList, HTest.apply, check_po2, hlen, h]
  refine ⟨rfl, hmain, fun hpf => ⟨?_, (isPow2_iff (2 ^ 29)).mpr ⟨29, rfl⟩⟩⟩
  have hb : (List.replicate (2 ^ 29) (0 : Nat)) ≠ [] := by
    refine List.length_pos.mp ?_
    rw [List.length_replicate]
    exact pow_pos (by omega) 29
  rw [hmain _ hb, List.length_replicate, hpf]

/-- Claim C10 witness: a concrete non-empty buffer, and a concrete platform
predicate agreeing with the CPython observation at 2 ^ 29. -/
theorem claim_C10_witness :
    ([7, 7, 7] : List Nat) ≠ [] ∧
    (po2Rule po2floatStub).test [7, 7, 7]
      = some (po2floatStub ([7, 7, 7] : List Nat).length) ∧
    po2floatStub (2 ^ 29) = false ∧
    (po2Rule po2floatStub).test (List.replicate (2 ^ 29) 0) = some false ∧
    isPow2 (2 ^ 29) = true :=
  ⟨by decide,
   (claim_C10 po2floatStub).2.1 [7, 7, 7] (by decide),
   by decide,
   ((claim_C10 po2floatStub).2.2 (by decide)).1,
   ((claim_C10 po2floatStub).2.2 (by decide)).2⟩

/-- get_index returns the default when the item is absent. -/
theorem get_index_of_not_mem (ls : List String) (l : String) (d : Int)
    (h : l ∉ ls) : get_index ls l d = d := by
  simp [get_index, h]

/-- get_index returns the first index when the item is present. -/
theorem get_index_of_mem (ls : List String) (l : String) (d : Int)
    (h : l ∈ ls) : get_index ls l d = (ls.indexOf l : Int) := by
  have hne : ls ≠ [] := List.ne_nil_of_mem h
  simp [get_index, h, List.isEmpty_iff, hne]

/-- One summand of the languages score is never positive. -/
theorem langTerm_nonpos (sl : List String) (l : String) (W : Int) (hW : 0 < W) :
    (get_index sl l (-1) + 1) * (-W) ≤ 0 := by
  by_cases h : l ∈ sl
  · rw [get_index_of_mem sl l (-1) h]
    have h1 : (0 : Int) < (sl.indexOf l : Int) + 1 := by positivity
    exact le_of_lt (mul_neg_of_pos_of_neg h1 (by omega))
  · rw [get_index_of_not_mem sl l (-1) h]
    simp

/-- One summand of the languages score vanishes exactly for an unselected
language. -/
theorem langTerm_eq_zero_iff (sl : List String) (l : String) (W : Int) (hW : 0 < W) :
    (get_index sl l (-1) + 1) * (-W) = 0 ↔ l ∉ sl := by
  constructor
  · intro h hmem
    rw [get_index_of_mem sl l (-1) hmem] at h
    have h1 : (0 : Int) < (sl.indexOf l : Int) + 1 := by positivity
    have := mul_neg_of_pos_of_neg h1 (show -W < 0 by omega)
    omega
  · intro h
    rw [get_index_of_not_mem sl l (-1) h]
    ring

/-- The languages score sum is nonpositive and vanishes exactly when no
language of the candidate is selected. -/
theorem langSum (sl : List String) (W : Int) (hW : 0 < W) (L : List String) :
    (L.map (fun lang => (get_index sl lang (-1) + 1) * (-W))).sum ≤ 0 ∧
    ((L.map (fun lang => (get_index sl lang (-1) + 1) * (-W))).sum = 0 ↔
      ∀ l ∈ L, l ∉ sl) := by
  induction L with
  | nil => simp
  | cons x xs ih =>
    simp only [List.map_cons, List.sum_cons]
    have hx := langTerm_nonpos sl x W hW
    refine ⟨by omega, ?_, ?_⟩
    · intro h
      have hx0 : (get_index sl x (-1) + 1) * (-W) = 0 := by omega
      have hrest : (xs.map (fun lang => (get_index sl lang (-1) + 1) * (-W))).sum = 0 := by
        omega
      intro l hl
      rcases List.mem_cons.mp hl with rfl | hl
      · exact (langTerm_eq_zero_iff sl l W hW).mp hx0
      · exact (ih.2.mp hrest) l hl
    · intro h
      rw [(langTerm_eq_zero_iff sl x W hW).mpr (h x (List.mem_cons_self x xs)),
        ih.2.mpr (fun l hl => h l (List.mem_cons_of_mem x hl))]
      ring

/-- Claim C6.  For every candidate scored with a positive language weight
and any selected-language list, score.languages is at most 0, and it equals
0 exactly when none of the candidate languages occurs in the selected
list. -/
theorem claim_C6 (g : GameEntry) (selected_regions selected_languages : List String)
    (W : Int) (revision_asc version_asc : Bool) (hW : 0 < W) :
    (scoreOf selected_regions selected_languages W revision_asc version_asc g).languages ≤ 0 ∧
    ((scoreOf selected_regions selected_languages W revision_asc version_asc g).languages = 0 ↔
      ∀ l ∈ g.languages, l ∉ selected_languages) := by
  have h := langSum selected_languages W hW g.languages
  simpa [scoreOf] using h

/-- Claim C6 witness: weight 3, candidate with languages [en], selected
languages [en]. -/
theorem claim_C6_witness :
    (0 : Int) < 3 ∧
    (scoreOf [] ["en"] 3 false false entryA).languages ≤ 0 ∧
    ((scoreOf [] ["en"] 3 false false entryA).languages = 0 ↔
      ∀ l ∈ entryA.languages, l ∉ ["en"]) :=
  ⟨by decide, (claim_C6 entryA [] ["en"] 3 false false (by decide)).1,
   (claim_C6 entryA [] ["en"] 3 false false (by decide)).2⟩

/-- Claim C7 (amended).  The relation induced by the 16-component
lexicographic key is a total preorder on candidates: total and transitive;
mutually comparable candidates have equal keys (antisymmetry holds at the
key level, but not on candidates themselves, see the counterexample). -/
theorem claim_C7 (kg : GameEntryKeyGenerator) (a b c : GameEntry) :
    (kg.generate a ≤ kg.generate b ∨ kg.generate b ≤ kg.generate a) ∧
    (kg.generate a ≤ kg.generate b → kg.generate b ≤ kg.generate c →
      kg.generate a ≤ kg.generate c) ∧
    (kg.generate a ≤ kg.generate b → kg.generate b ≤ kg.generate a →
      kg.generate a = kg.generate b) :=
  ⟨le_total (kg.generate a) (kg.generate b),
   fun h1 h2 => le_trans h1 h2,
   fun h1 h2 => le_antisymm h1 h2⟩

/-- Claim C7 witness: concrete candidates on which the comparability
hypotheses hold. -/
theorem claim_C7_witness :
    kg0.generate entryA ≤ kg0.generate entryB ∧
    kg0.generate entryA = kg0.generate entryB :=
  ⟨by decide, (claim_C7 kg0 entryA entryB entryB).2.2 (by decide) (by decide)⟩

/-- Claim C7 counterexample: the relation is not antisymmetric on
candidates, hence not a total order on candidate pairs as claimed: entryA
and entryB precede each other yet differ (they differ in name only, which
the key ignores when the avoid and prefer lists are empty). -/
theorem claim_C7_cex :
    kg0.generate entryA ≤ kg0.generate entryB ∧
    kg0.generate entryB ≤ kg0.generate entryA ∧
    entryA ≠ entryB := by
  refine ⟨by decide, by decide, by decide⟩

/-- The combinations of arguments that claim C9 describes: mutually
exclusive flags, a missing DAT file, or a non-positive thread count. -/
def badCombo (a : Args) : Prop :=
  (a.all_regions = true ∧ a.all_regions_with_lang = true) ∨
  ((a.revision_asc = true ∨ a.version_asc = true) ∧ a.input_order = true) ∨
  ((a.revision_asc = true ∨ a.version_asc = true) ∧ a.prefer_parents = true) ∨
  (a.prefer_parents = true ∧ a.input_order = true) ∨
  a.dat_file = Option.none ∨
  a.threads ≤ 0

/-- Helper for claim C9: a bad argument combination never falls through the
validation chain of main. -/
theorem mainChecksNoProceed (a : Args) (env : Env) (h : badCombo a)
    (hmc : main_checks a env = MainOutcome.proceed) : False := by
  unfold main_checks at hmc
  by_cases h1 : a.no_scan = false ∧ a.input_dir = Option.none ∧ env.user_confirms = false
  · rw [if_pos h1] at hmc
    exact MainOutcome.noConfusion hmc
  · rw [if_neg h1] at hmc
    by_cases h2 : a.file_extension ≠ "" ∧ a.no_scan = false ∧ a.input_dir ≠ Option.none
    · rw [if_pos h2] at hmc
      exact MainOutcome.noConfusion hmc
    · rw [if_neg h2] at hmc
      by_cases h3 : a.dat_file = Option.none
      · rw [if_pos h3] at hmc
        exact MainOutcome.noConfusion hmc
      · rw [if_neg h3] at hmc
        by_cases h4 : a.selected_regions = []
        · rw [if_pos h4] at hmc
          exact MainOutcome.noConfusion hmc
        · rw [if_neg h4] at hmc
          by_cases h5 : (a.revision_asc = true ∨ a.version_asc = true) ∧ a.input_order = true
          · rw [if_pos h5] at hmc
            exact MainOutcome.noConfusion hmc
          · rw [if_neg h5] at hmc
            by_cases h6 : (a.revision_asc = true ∨ a.version_asc = true) ∧ a.prefer_parents = true
            · rw [if_pos h6] at hmc
              exact MainOutcome.noConfusion hmc
            · rw [if_neg h6] at hmc
              by_cases h7 : a.prefer_parents = true ∧ a.input_order = true
              · rw [if_pos h7] at hmc
                exact MainOutcome.noConfusion hmc
              · rw [if_neg h7] at hmc
                by_cases h8 : a.output_dir ≠ Option.none ∧ a.input_dir = Option.none
                · rw [if_pos h8] at hmc
                  exact MainOutcome.noConfusion hmc
                · rw [if_neg h8] at hmc
                  by_cases h9 : a.ignore_case = true ∧ a.prefer_str = "" ∧ a.avoid_str = "" ∧ a.exclude_str = ""
                  · rw [if_pos h9] at hmc
                    exact MainOutcome.noConfusion hmc
                  · rw [if_neg h9] at hmc
                    by_cases h10 : a.regex = true ∧ a.prefer_str = "" ∧ a.avoid_str = "" ∧ a.exclude_str = ""
                    · rw [if_pos h10] at hmc
                      exact MainOutcome.noConfusion hmc
                    · rw [if_neg h10] at hmc
                      by_cases h11 : a.all_regions = true ∧ a.all_regions_with_lang = true
                      · rw [if_pos h11] at hmc
                        exact MainOutcome.noConfusion hmc
                      · rw [if_neg h11] at hmc
                        by_cases h12 : a.threads ≤ 0
                        · rw [if_pos h12] at hmc
                          exact MainOutcome.noConfusion hmc
                        · rw [if_neg h12] at hmc
                          by_cases h13 : a.max_file_size ≤ 0
                          · rw [if_pos h13] at hmc
                            exact MainOutcome.noConfusion hmc
                          · rw [if_neg h13] at hmc
                            rcases h with ⟨hx, hy⟩ | ⟨hx, hy⟩ | ⟨hx, hy⟩ | ⟨hx, hy⟩ | hx | hx
                            · exact h11 ⟨hx, hy⟩
                            · exact h5 ⟨hx, hy⟩
                            · exact h6 ⟨hx, hy⟩
                            · exact h7 ⟨hx, hy⟩
                            · exact h3 hx
                            · exact h12 hx

/-- Helper for claim C9: the silent exit happens only when the prompt was
shown and declined. -/
theorem mainChecksPromptCond (a : Args) (env : Env)
    (hmc : main_checks a env = MainOutcome.promptRefused) :
    a.no_scan = false ∧ a.input_dir = Option.none ∧ env.user_confirms = false := by
  unfold main_checks at hmc
  by_cases h1 : a.no_scan = false ∧ a.input_dir = Option.none ∧ env.user_confirms = false
  · exact h1
  · rw [if_neg h1] at hmc
    by_cases h2 : a.file_extension ≠ "" ∧ a.no_scan = false ∧ a.input_dir ≠ Option.none
    · rw [if_pos h2] at hmc
      exact MainOutcome.noConfusion hmc
    · rw [if_neg h2] at hmc
      by_cases h3 : a.dat_file = Option.none
      · rw [if_pos h3] at hmc
        exact MainOutcome.noConfusion hmc
      · rw [if_neg h3] at hmc
        by_cases h4 : a.selected_regions = []
        · rw [if_pos h4] at hmc
          exact MainOutcome.noConfusion hmc
        · rw [if_neg h4] at hmc
          by_cases h5 : (a.revision_asc = true ∨ a.version_asc = true) ∧ a.input_order = true
          · rw [if_pos h5] at hmc
            exact MainOutcome.noConfusion hmc
          · rw [if_neg h5] at hmc
            by_cases h6 : (a.revision_asc = true ∨ a.version_asc = true) ∧ a.prefer_parents = true
            · rw [if_pos h6] at hmc
              exact MainOutcome.noConfusion hmc
            · rw [if_neg h6] at hmc
              by_cases h7 : a.prefer_parents = true ∧ a.input_order = true
              · rw [if_pos h7] at hmc
                exact MainOutcome.noConfusion hmc
              · rw [if_neg h7] at hmc
                by_cases h8 : a.output_dir ≠ Option.none ∧ a.input_dir = Option.none
                · rw [if_pos h8] at hmc
                  exact MainOutcome.noConfusion hmc
                · rw [if_neg h8] at hmc
                  by_cases h9 : a.ignore_case = true ∧ a.prefer_str = "" ∧ a.avoid_str = "" ∧ a.exclude_str = ""
                  · rw [if_pos h9] at hmc
                    exact MainOutcome.noConfusion hmc
                  · rw [if_neg h9] at hmc
                    by_cases h10 : a.regex = true ∧ a.prefer_str = "" ∧ a.avoid_str = "" ∧ a.exclude_str = ""
                    · rw [if_pos h10] at hmc
                      exact MainOutcome.noConfusion hmc
                    · rw [if_neg h10] at hmc
                      by_cases h11 : a.all_regions = true ∧ a.all_regions_with_lang = true
                      · rw [if_pos h11] at hmc
                        exact MainOutcome.noConfusion hmc
                      · rw [if_neg h11] at hmc
                        by_cases h12 : a.threads ≤ 0
                        · rw [if_pos h12] at hmc
                          exact MainOutcome.noConfusion hmc
                        · rw [if_neg h12] at hmc
                          by_cases h13 : a.max_file_size ≤ 0
                          · rw [if_pos h13] at hmc
                            exact MainOutcome.noConfusion hmc
                          · rw [if_neg h13] at hmc
                            exact MainOutcome.noConfusion hmc

/-- Claim C9 (amended).  On every argument set with a bad combination the
run never reaches pattern-list parsing, DAT validation or file indexing;
it exits fatally with the usage text, except that when scanning is enabled
without an input directory the run first asks for confirmation and exits
silently (no usage text, exit status 0) if the user declines. -/
theorem claim_C9 (a : Args) (env : Env) (h : badCombo a) :
    main_checks a env ≠ MainOutcome.proceed ∧
    (main_checks a env = MainOutcome.promptRefused ∨
      ∃ msg, main_checks a env = MainOutcome.usageExit msg) ∧
    (main_checks a env = MainOutcome.promptRefused →
      a.no_scan = false ∧ a.input_dir = Option.none ∧ env.user_confirms = false) := by
  refine ⟨fun hmc => mainChecksNoProceed a env h hmc, ?_,
    fun hmc => mainChecksPromptCond a env hmc⟩
  cases hmc : main_checks a env with
  | promptRefused => exact Or.inl rfl
  | usageExit msg => exact Or.inr ⟨msg, rfl⟩
  | proceed => exact absurd hmc (fun hx => mainChecksNoProceed a env h hx)

/-- Claim C9 witness: the concrete exclusive-flag argument set, with a user
who confirms the prompt, exits with the usage text. -/
theorem claim_C9_witness :
    main_checks argsExclusive ({ user_confirms := true }) ≠ MainOutcome.proceed ∧
    (main_checks argsExclusive ({ user_confirms := true }) = MainOutcome.promptRefused ∨
      ∃ msg, main_checks argsExclusive ({ user_confirms := true })
        = MainOutcome.usageExit msg) :=
  ⟨(claim_C9 argsExclusive ({ user_confirms := true }) (Or.inl ⟨rfl, rfl⟩)).1,
   (claim_C9 argsExclusive ({ user_confirms := true }) (Or.inl ⟨rfl, rfl⟩)).2.1⟩

/-- Claim C9 counterexample: with the same exclusive flags but no input
directory and a user who declines the prompt, the run exits silently,
without the usage text, so the claim as stated fails. -/
theorem claim_C9_cex :
    main_checks argsExclusive ({ user_confirms := false })
      = MainOutcome.promptRefused ∧
    ∀ msg, main_checks argsExclusive ({ user_confirms := false })
      ≠ MainOutcome.usageExit msg := by
  refine ⟨by decide, fun msg h => ?_⟩
  rw [show main_checks argsExclusive ({ user_confirms := false })
    = MainOutcome.promptRefused by decide] at h
  exact MainOutcome.noConfusion h

end OneGOneR
